import Mathlib

/-!
Formal model of the deno-mediawiki client library: the dual-backend unification
layer presenting one object model over a modern REST protocol and a legacy
actions protocol. Definitions are transcribed from the TypeScript source
(wiki.ts, history.ts, page.ts, the revision module and the wire-type modules);
network interaction is made explicit by passing response streams and oracles as
arguments and by returning request traces or request counts alongside results.
-/

namespace Mediawiki

/-- User information attached to a modern-protocol revision (rest types). -/
structure RevUser where
  name : String
  id : Option Int
  deriving DecidableEq

/-- The modern-protocol revision object (rest types, Revision). -/
structure Revision where
  id : Nat
  user : RevUser
  timestamp : String
  comment : Option String
  size : Int
  delta : Option Int
  minor : Bool
  deriving DecidableEq

/-- The page member of a RevisionWithPage. -/
structure PageRef where
  id : Nat
  title : String
  deriving DecidableEq

/-- rest types, RevisionWithPage: a Revision together with its page. -/
structure RevisionWithPage where
  id : Nat
  user : RevUser
  timestamp : String
  comment : Option String
  size : Int
  delta : Option Int
  minor : Bool
  page : PageRef
  deriving DecidableEq

/-- Dropping the page member, as in History.slice where the page member of the
seed element is overwritten with undefined. -/
def RevisionWithPage.toRevision (d : RevisionWithPage) : Revision :=
  { id := d.id, user := d.user, timestamp := d.timestamp, comment := d.comment,
    size := d.size, delta := d.delta, minor := d.minor }

/-- The ResolvedRevision class: an immutable RevisionWithPage snapshot. -/
structure ResolvedRevision where
  id : Nat
  user : RevUser
  timestamp : String
  comment : Option String
  size : Int
  delta : Option Int
  minor : Bool
  page : PageRef
  deriving DecidableEq

/-- The ResolvedRevision constructor body: copies the eight data fields. -/
def ResolvedRevision.ofData (data : RevisionWithPage) : ResolvedRevision :=
  { id := data.id, user := data.user, timestamp := data.timestamp,
    comment := data.comment, size := data.size, delta := data.delta,
    minor := data.minor, page := data.page }

/-- ResolvedRevision.toJSON: rebuilds the RevisionWithPage record, in the field
order written in the source. -/
def ResolvedRevision.toJSON (r : ResolvedRevision) : RevisionWithPage :=
  { id := r.id, page := r.page, size := r.size, minor := r.minor,
    timestamp := r.timestamp, user := r.user, comment := r.comment,
    delta := r.delta }

/- ## Error classifier (wiki.ts, handleRestError and handleActionsError) -/

/-- The deprecated legacy error payload nested under the error member. -/
structure LegacyErrorBody where
  code : String
  info : String
  docref : String
  deriving DecidableEq

/-- One entry of the current legacy errors array. -/
structure ActionsErrorEntry where
  code : String
  text : String
  module : String
  deriving DecidableEq

/-- A JSON-decoded response body, with the fields the two classifiers inspect
made explicit as optional members and all remaining content abstracted as the
rest member. -/
structure Body where
  httpCode : Option Int := none
  messageTranslations : Option (List (String × String)) := none
  message : Option String := none
  error : Option LegacyErrorBody := none
  errors : Option (List ActionsErrorEntry) := none
  rest : String := ""
  deriving DecidableEq

/-- Indexing messageTranslations at the language key en. -/
def lookupEn (m : List (String × String)) : Option String :=
  (m.find? (fun p => p.1 == "en")).map (fun p => p.2)

/-- The nullish-coalescing message chain of handleRestError: translation at en,
else message, else httpCode rendered as a string. -/
def restMessage (b : Body) (h : Int) : String :=
  match b.messageTranslations.bind lookupEn with
  | some s => s
  | none =>
    match b.message with
    | some s => s
    | none => toString h

/-- isRestError: structural discrimination by presence of httpCode. -/
def isRestError (b : Body) : Bool := b.httpCode.isSome

/-- handleRestError: returns the body unchanged unless httpCode is present, in
which case it throws the message chain. -/
def handleRestError (b : Body) : Except String Body :=
  match b.httpCode with
  | none => .ok b
  | some h => .error (restMessage b h)

/-- Outcome of handleActionsError: the body unchanged, a thrown Error with a
message, or the runtime type error JavaScript raises when reading the text
member of an absent first array element. -/
inductive ActionsOutcome where
  | ok (b : Body)
  | raised (msg : String)
  | typeError
  deriving DecidableEq

/-- isActionsError: presence of the error member or the errors member. -/
def isActionsError (b : Body) : Bool := b.error.isSome || b.errors.isSome

/-- isLegacyError: presence of the error member, checked first. -/
def isLegacyError (b : Body) : Bool := b.error.isSome

/-- handleActionsError: returns the body unchanged when neither error member is
present; otherwise throws, taking the info of the deprecated shape when the
error member exists, and the text of the first errors entry otherwise. -/
def handleActionsError (b : Body) : ActionsOutcome :=
  match b.error, b.errors with
  | none, none => .ok b
  | some e, _ => .raised e.info
  | none, some (e :: _) => .raised e.text
  | none, some [] => .typeError

/- ## Page key derivation (page.ts and the unnamed page module) -/

/-- JavaScript String.prototype.replace with a one-character string pattern:
only the first occurrence is replaced. -/
def jsReplaceFirstChar (pat repl : Char) : List Char → List Char
  | [] => []
  | c :: cs => if c = pat then repl :: cs else c :: jsReplaceFirstChar pat repl cs

/-- The key accessor polyfill of AsyncPage in page.ts:
title.replace with a single space pattern and an underscore replacement. -/
def keyPolyfill (title : String) : String :=
  String.mk (jsReplaceFirstChar ' ' '_' title.data)

/-- JavaScript String.prototype.replaceAll with a one-character string pattern:
every occurrence is replaced. -/
def jsReplaceAllChar (pat repl : Char) (l : List Char) : List Char :=
  l.map (fun c => if c = pat then repl else c)

/-- The key computation inside the unnamed page module AsyncPage fetch body:
title.replaceAll with a single space pattern and an underscore replacement. -/
def fetchKey (title : String) : String :=
  String.mk (jsReplaceAllChar ' ' '_' title.data)

/- ## History descriptor and its pure transforms (history.ts) -/

/-- The filter kinds accepted by History. -/
inductive HFilter where
  | reverted
  | anonymous
  | bot
  | minor
  deriving DecidableEq

/-- The private state of a History object: filter, from, to, and limit. A limit
of none models the default Number.POSITIVE_INFINITY. -/
structure HistoryDesc where
  filter : Option HFilter := none
  fromId : Option Nat := none
  toId : Option Nat := none
  limit : Option Nat := none
  deriving DecidableEq

/-- History.olderThan: a new descriptor with from overridden by the given id. -/
def History.olderThan (d : HistoryDesc) (id : Nat) : HistoryDesc :=
  { filter := d.filter, fromId := some id, toId := d.toId, limit := d.limit }

/-- History.newerThan: a new descriptor with to overridden by the given id. -/
def History.newerThan (d : HistoryDesc) (id : Nat) : HistoryDesc :=
  { filter := d.filter, fromId := d.fromId, toId := some id, limit := d.limit }

/-- History.filter: a new descriptor with the filter overridden. -/
def History.filter (d : HistoryDesc) (f : HFilter) : HistoryDesc :=
  { filter := some f, fromId := d.fromId, toId := d.toId, limit := d.limit }

/-- History.limit: a new descriptor with the limit overridden. -/
def History.limit (d : HistoryDesc) (n : Nat) : HistoryDesc :=
  { filter := d.filter, fromId := d.fromId, toId := d.toId, limit := some n }

/-- The count test after a yield: count is compared with the limit; against the
default infinite limit the comparison is always false. -/
def limitReached (limit : Option Nat) (count : Nat) : Bool :=
  match limit with
  | none => false
  | some l => l ≤ count

/-- The inner per-batch loop shared by both iteration paths: for each revision,
first the to bound is tested and iteration returns without yielding on a hit;
otherwise the revision is yielded, the count incremented, and the limit tested.
Returns the yielded revisions, the updated count, and whether the generator
returned inside the batch. -/
def runRevs (toId limit : Option Nat) : Nat → List Revision → List Revision × Nat × Bool
  | count, [] => ([], count, false)
  | count, r :: rs =>
    if toId = some r.id then ([], count, true)
    else if limitReached limit (count + 1) then ([r], count + 1, true)
    else
      let step := runRevs toId limit (count + 1) rs
      (r :: step.1, step.2.1, step.2.2)

/- ## Modern-protocol iteration (History.iterate) -/

/-- One modern-protocol history response: a revisions array plus the optional
older cursor URL. -/
structure ModernBatch where
  revisions : List Revision
  older : Option String := none
  deriving DecidableEq

/-- The modern-protocol loop of History.iterate, over the stream of responses
the server would return (first element answers the initial request, later
elements answer successive older-cursor fetches). The loop ends inside a batch
when the to bound or the limit stops it, and between batches when the older
cursor is absent; an exhausted stream models a missing further response. -/
def iterateGo (toId limit : Option Nat) : Nat → List ModernBatch → List Revision
  | _, [] => []
  | count, b :: rest =>
    let step := runRevs toId limit count b.revisions
    if step.2.2 then step.1
    else
      match b.older with
      | none => step.1
      | some _ => step.1 ++ iterateGo toId limit step.2.1 rest

/-- History.iterate for a descriptor: count starts at zero. -/
def History.iterate (d : HistoryDesc) (batches : List ModernBatch) : List Revision :=
  iterateGo d.toId d.limit 0 batches

/- ## Legacy-protocol iteration (History.iteratePolyfill) -/

/-- The legacy actions revision shape consumed by the polyfill. -/
structure ActionsRevision where
  revid : Nat
  parentid : Nat
  minor : Bool
  user : String
  anon : Option Bool := none
  userid : Nat
  timestamp : String
  size : Int
  comment : String
  tags : List String
  deriving DecidableEq

/-- One entry of the bot-contributor list of a page. -/
structure Contributor where
  userid : Nat
  name : String
  deriving DecidableEq

/-- One legacy query response: the revisions of the page, the contributors
member (only read from the first response), and the continuation token. -/
structure QueryBatch where
  revisions : List ActionsRevision
  contributors : List Contributor := []
  rvcontinue : Option String := none
  deriving DecidableEq

/-- The shape of one legacy request as far as the claims need it: whether the
request asks for the bot contributors, and its continuation token. -/
structure ActionsParams where
  withContributors : Bool
  rvcontinue : Option String := none
  deriving DecidableEq

/-- Modelled from the spec: Wiki.convertRevision is not among the provided
source files (only its callers in history.ts and the unnamed revision module
are). Per the spec, section 4.3: delta is the size of this revision minus the
size of the parent revision, requiring a second size-only request for parentid,
unless parentid is 0, in which case delta is null without any request; a userid
of 0 is normalized to null. The sizes argument is the oracle giving the size a
size-only query returns for a revision id; the second component counts the
secondary size-only fetches issued. -/
def convertRevision (sizes : Nat → Int) (r : ActionsRevision) : Revision × Nat :=
  if r.parentid = 0 then
    ({ id := r.revid
       user := { name := r.user, id := if r.userid = 0 then none else some (Int.ofNat r.userid) }
       timestamp := r.timestamp
       comment := some r.comment
       size := r.size
       delta := none
       minor := r.minor }, 0)
  else
    ({ id := r.revid
       user := { name := r.user, id := if r.userid = 0 then none else some (Int.ofNat r.userid) }
       timestamp := r.timestamp
       comment := some r.comment
       size := r.size
       delta := some (r.size - sizes r.parentid)
       minor := r.minor }, 1)

/-- The client-side filter test of iteratePolyfill, switching on the filter of
the descriptor; the bot case tests membership of the userid in the contributor
list of the first response. -/
def revisionPred (filter : Option HFilter) (contributors : List Contributor)
    (r : ActionsRevision) : Bool :=
  match filter with
  | some .anonymous => r.anon.getD false
  | some .bot => contributors.any (fun u => u.userid == r.userid)
  | some .minor => r.minor
  | some .reverted => r.tags.contains "mw-rollback"
  | none => true

/-- The loop exit test of iteratePolyfill: the continuation member is absent,
or its rvcontinue equals the literal string undefined (the comparison written
in the source). -/
def contBroken (rvc : Option String) : Bool :=
  match rvc with
  | none => true
  | some s => s == "undefined"

/-- The batch loop of History.iteratePolyfill over the stream of legacy
responses: each batch is filtered client-side, converted to the modern shape,
then fed through the shared inner loop; when the loop continues, a continuation
request without the contributors prop is issued. Returns the yields and the
trace of continuation requests. -/
def iteratePolyfillGo (toId limit : Option Nat) (filter : Option HFilter)
    (sizes : Nat → Int) (contributors : List Contributor) :
    Nat → List QueryBatch → List Revision × List ActionsParams
  | _, [] => ([], [])
  | count, b :: rest =>
    let conv := (b.revisions.filter (revisionPred filter contributors)).map
      (fun r => (convertRevision sizes r).1)
    let step := runRevs toId limit count conv
    if step.2.2 then (step.1, [])
    else if contBroken b.rvcontinue then (step.1, [])
    else
      let next := iteratePolyfillGo toId limit filter sizes contributors step.2.1 rest
      (step.1 ++ next.1, { withContributors := false, rvcontinue := b.rvcontinue } :: next.2)

/-- History.iteratePolyfill: the initial request carries the contributors prop
with the bot group; the contributor list is read from the first response and
fixed for the whole iteration. Returns the yields and the full request trace,
the initial request first. -/
def History.iteratePolyfill (d : HistoryDesc) (sizes : Nat → Int)
    (first : QueryBatch) (rest : List QueryBatch) :
    List Revision × List ActionsParams :=
  let body := iteratePolyfillGo d.toId d.limit d.filter sizes first.contributors 0 (first :: rest)
  (body.1, { withContributors := true, rvcontinue := none } :: body.2)

/- ## History.slice -/

/-- The accumulation loop of History.slice: revisions of the underlying
iteration are pushed until one with the to id is reached, which is excluded. -/
def sliceAccum (toId : Nat) : List Revision → List Revision → List Revision
  | acc, [] => acc
  | acc, r :: rs => if r.id = toId then acc else sliceAccum toId (acc ++ [r]) rs

/-- History.slice: the array is seeded with the from revision resolved directly
through the revision oracle (its page member overwritten with undefined), then
filled from the iteration of olderThan applied at from, stopping before the to
revision. The batches argument is the modern-protocol response stream of that
iteration. -/
def History.slice (d : HistoryDesc) (revOracle : Nat → RevisionWithPage)
    (batches : List ModernBatch) (fromId toId : Nat) : List Revision :=
  sliceAccum toId [(revOracle fromId).toRevision]
    (History.iterate (History.olderThan d fromId) batches)

/- ## Wiki client state, init, search and complete (wiki.ts) -/

/-- The mutable configuration of a Wiki instance. The inited field embeds the
private flag declared as initialized in the source, with its initial value
false; the source never assigns it afterwards. -/
structure WikiState where
  url : String
  apiUrl : String
  polyfilled : Bool
  inited : Bool := false
  deriving DecidableEq

/-- path.join as used for the probe and endpoint URLs, abstracted to separator
concatenation. -/
def joinPath (a b : String) : String := a ++ "/" ++ b

/-- Wiki.init: an early return when the flag is set (it never is, since no code
assigns it); otherwise the modern health path of the current endpoint is
probed, and on a 404 the client either fails at once (legacy endpoint already
chosen) or switches to the legacy endpoint and probes again, failing when that
probe also 404s. The probe argument gives the HTTP status the health-path fetch
of an endpoint returns; the result carries the number of probe requests
issued. -/
def Wiki.init (probe : String → Nat) (s : WikiState) : Except String WikiState × Nat :=
  if s.inited then (.ok s, 0)
  else if probe s.apiUrl = 404 then
    if s.polyfilled then (.error "Invalid API url", 1)
    else
      let s2 : WikiState :=
        { url := s.url, apiUrl := joinPath s.url "api.php", polyfilled := true,
          inited := s.inited }
      if probe s2.apiUrl = 404 then (.error "Invalid API url", 2)
      else (.ok s2, 2)
  else (.ok s, 1)

/-- The kinds of network requests search and complete can cause. -/
inductive ReqKind where
  | probe
  | searchPage
  | searchTitle
  deriving DecidableEq

/-- The probe requests caused by the un-awaited init call at the top of search
and complete: none when the flag is set, otherwise the probes init issues. A
rejection inside that call is an unhandled promise rejection and never reaches
the caller, so only the request count matters here. -/
def initRequests (probe : String → Nat) (s : WikiState) : List ReqKind :=
  if s.inited then [] else List.replicate (Wiki.init probe s).2 ReqKind.probe

/-- Wiki.search: fires the un-awaited init, then validates the limit argument,
throwing before the search request when it lies outside 1 to 100; otherwise the
search-page request is issued. Returns the outcome and the request trace. -/
def Wiki.search (probe : String → Nat) (s : WikiState) (q : String) (limit : Int) :
    Except String Unit × List ReqKind :=
  let reqs := initRequests probe s
  if limit < 1 ∨ limit > 100 then
    (.error "Invalid limit requested. Set limit parameter to between 1 and 100.", reqs)
  else
    (.ok (), reqs ++ [ReqKind.searchPage])

/-- Wiki.complete: identical control flow to search, issuing the search-title
request instead. -/
def Wiki.complete (probe : String → Nat) (s : WikiState) (q : String) (limit : Int) :
    Except String Unit × List ReqKind :=
  let reqs := initRequests probe s
  if limit < 1 ∨ limit > 100 then
    (.error "Invalid limit requested. Set limit parameter to between 1 and 100.", reqs)
  else
    (.ok (), reqs ++ [ReqKind.searchTitle])

/- ## Lazy entity handles (the unnamed revision module and page.ts) -/

/-- The state of an AsyncRevision handle: its fetch key and the memoizing
promise field. -/
structure AsyncRevisionState where
  id : Nat
  promise : Option ResolvedRevision := none
  deriving DecidableEq

/-- The AsyncRevision constructor: stores the id, leaves the promise field
unset, and issues no fetch; the second component counts fetch-and-translate
cycles. -/
def AsyncRevision.new (id : Nat) : AsyncRevisionState × Nat :=
  ({ id := id, promise := none }, 0)

/-- One property access on an AsyncRevision: the promise field is filled by a
fetch on first use and reused afterwards. The fetched argument is the
ResolvedRevision one fetch-and-translate cycle would produce; the Nat counts
the cycles this access issues. -/
def AsyncRevision.access (fetched : ResolvedRevision) (s : AsyncRevisionState) :
    AsyncRevisionState × ResolvedRevision × Nat :=
  match s.promise with
  | some p => (s, p, 0)
  | none => ({ id := s.id, promise := some fetched }, fetched, 1)

/-- The user accessor of AsyncRevision. -/
def AsyncRevision.getUser (fetched : ResolvedRevision) (s : AsyncRevisionState) :
    AsyncRevisionState × RevUser × Nat :=
  let step := AsyncRevision.access fetched s
  (step.1, step.2.1.user, step.2.2)

/-- The timestamp accessor of AsyncRevision. -/
def AsyncRevision.getTimestamp (fetched : ResolvedRevision) (s : AsyncRevisionState) :
    AsyncRevisionState × String × Nat :=
  let step := AsyncRevision.access fetched s
  (step.1, step.2.1.timestamp, step.2.2)

/-- The resolved page data shape (rest types, PageWithSource). -/
structure PageWithSource where
  id : Nat
  key : String
  title : String
  latestId : Nat
  latestTimestamp : String
  content_model : String
  licenseUrl : String
  licenseTitle : String
  source : String
  deriving DecidableEq

/-- The state of an AsyncPage handle: only the fetch key. The class declares no
promise field; nothing is memoized. -/
structure AsyncPageState where
  title : String
  deriving DecidableEq

/-- The AsyncPage constructor: stores the title and issues no fetch. -/
def AsyncPage.new (title : String) : AsyncPageState × Nat :=
  ({ title := title }, 0)

/-- One property access on an AsyncPage: every accessor starts a fresh fetch of
the page and projects the wanted field, so each access costs one
fetch-and-translate cycle. -/
def AsyncPage.access (fetched : PageWithSource) (s : AsyncPageState) :
    AsyncPageState × PageWithSource × Nat :=
  (s, fetched, 1)

/- ## Concrete sample values used by the closed evaluation theorems -/

/-- A sample modern revision. -/
def c4rev : Revision :=
  { id := 1, user := { name := "u", id := some 1 }, timestamp := "2020",
    comment := none, size := 5, delta := none, minor := false }

/-- A second sample modern revision. -/
def c4rev2 : Revision :=
  { id := 2, user := { name := "v", id := some 2 }, timestamp := "2021",
    comment := none, size := 6, delta := none, minor := true }

/-- A sample legacy revision with no parent. -/
def arevRoot : ActionsRevision :=
  { revid := 10, parentid := 0, minor := false, user := "u", userid := 3,
    timestamp := "2020", size := 5, comment := "c", tags := [] }

/-- A sample legacy revision with a parent. -/
def arevChild : ActionsRevision :=
  { revid := 11, parentid := 10, minor := false, user := "u", userid := 3,
    timestamp := "2021", size := 8, comment := "c2", tags := [] }

/-- A size oracle answering 3 for every id. -/
def sizesFix : Nat → Int := fun _ => 3

/-- A minor legacy revision. -/
def arevMinor : ActionsRevision :=
  { revid := 12, parentid := 0, minor := true, user := "u", userid := 3,
    timestamp := "2022", size := 4, comment := "m", tags := [] }

/-- A legacy revision made by a bot account. -/
def arevBot : ActionsRevision :=
  { revid := 13, parentid := 0, minor := false, user := "b", userid := 7,
    timestamp := "2023", size := 4, comment := "b", tags := [] }

/-- A first-response batch for the minor-filter witness. -/
def batchMinor : QueryBatch := { revisions := [arevMinor, arevChild] }

/-- A first-response batch for the bot-filter witness. -/
def batchBot : QueryBatch :=
  { revisions := [arevBot, arevChild], contributors := [{ userid := 7, name := "b" }] }

/-- A sample resolved page payload. -/
def pageFix : PageWithSource :=
  { id := 1, key := "A_B", title := "A B", latestId := 5, latestTimestamp := "2020",
    content_model := "wikitext", licenseUrl := "u", licenseTitle := "t", source := "s" }

/-- A sample resolved revision. -/
def resolvedFix : ResolvedRevision :=
  { id := 1, user := { name := "u", id := some 1 }, timestamp := "2020",
    comment := none, size := 5, delta := none, minor := false,
    page := { id := 1, title := "A B" } }

/-- A second sample resolved revision, with different content. -/
def resolvedFix2 : ResolvedRevision :=
  { id := 2, user := { name := "w", id := none }, timestamp := "2021",
    comment := some "x", size := 9, delta := some 4, minor := true,
    page := { id := 2, title := "C" } }

/-- A sample wiki state pointed at the modern endpoint. -/
def wikiFix : WikiState :=
  { url := "https://w", apiUrl := "https://w/rest.php", polyfilled := false }

/-- A revision oracle returning a revision carrying the requested id. -/
def revOracleFix : Nat → RevisionWithPage := fun n =>
  { id := n, user := { name := "u", id := some 1 }, timestamp := "2020",
    comment := none, size := 5, delta := none, minor := false,
    page := { id := 1, title := "A B" } }

/- ## Theorems -/

/-- C10: constructing a ResolvedRevision from RevisionWithPage data and then
serializing it with toJSON returns a value whose id, page, size, minor,
timestamp, user, comment and delta members equal those of the data. -/
theorem resolvedRevision_roundTrip (d : RevisionWithPage) :
    (ResolvedRevision.ofData d).toJSON = d := rfl

/-- C2: evaluation at the failing input. The page.ts key accessor polyfill
replaces only the first space of the title, because the JavaScript replace
method with a string pattern substitutes one occurrence; the fetch body of the
unnamed page module replaces all of them. On a title with two spaces the two
disagree, and only the second satisfies the every-space invariant. -/
theorem keyPolyfill_failing_eval :
    keyPolyfill "a b c" = "a_b c"
    ∧ fetchKey "a b c" = "a_b_c"
    ∧ keyPolyfill "a b c" ≠ fetchKey "a b c" := by
  refine ⟨by decide, by decide, by decide⟩

/-- C1: in the legacy revision translation, a parentid of 0 gives a null delta
with no secondary request, and a nonzero parentid gives a delta equal to the
size of the revision minus the size its parent reports, obtained through
exactly one secondary size-only fetch. -/
theorem convertRevision_delta (sizes : Nat → Int) (r : ActionsRevision) :
    (r.parentid = 0 →
      (convertRevision sizes r).1.delta = none ∧ (convertRevision sizes r).2 = 0)
    ∧ (r.parentid ≠ 0 →
      (convertRevision sizes r).1.delta = some (r.size - sizes r.parentid)
        ∧ (convertRevision sizes r).2 = 1) := by
  constructor
  · intro h
    simp [convertRevision, h]
  · intro h
    simp [convertRevision, h]

/-- Closed instance of the delta translation contract at the two sample legacy
revisions, one without and one with a parent. -/
theorem convertRevision_delta_witness :
    ((convertRevision sizesFix arevRoot).1.delta = none
      ∧ (convertRevision sizesFix arevRoot).2 = 0)
    ∧ ((convertRevision sizesFix arevChild).1.delta
        = some (arevChild.size - sizesFix arevChild.parentid)
      ∧ (convertRevision sizesFix arevChild).2 = 1) :=
  ⟨(convertRevision_delta sizesFix arevRoot).1 rfl,
   (convertRevision_delta sizesFix arevChild).2 (by decide)⟩

/-- C3: the classifiers return a body unchanged when it matches none of the
three error shapes; a body carrying httpCode raises with the en translation
when present, else the message member, else the httpCode rendered as a string;
a body with the deprecated error shape raises with its info; a body with the
current errors shape raises with the text of its first entry. -/
theorem errorClassifier_spec (b : Body) :
    (b.httpCode = none → handleRestError b = .ok b)
    ∧ (b.error = none → b.errors = none → handleActionsError b = .ok b)
    ∧ (∀ h s, b.httpCode = some h → b.messageTranslations.bind lookupEn = some s →
        handleRestError b = .error s)
    ∧ (∀ h s, b.httpCode = some h → b.messageTranslations.bind lookupEn = none →
        b.message = some s → handleRestError b = .error s)
    ∧ (∀ h, b.httpCode = some h → b.messageTranslations.bind lookupEn = none →
        b.message = none → handleRestError b = .error (toString h))
    ∧ (∀ e, b.error = some e → handleActionsError b = .raised e.info)
    ∧ (∀ e tl, b.error = none → b.errors = some (e :: tl) →
        handleActionsError b = .raised e.text) := by
  refine ⟨?_, ?_, ?_, ?_, ?_, ?_, ?_⟩
  · intro h
    unfold handleRestError
    rw [h]
  · intro h1 h2
    unfold handleActionsError
    rw [h1, h2]
  · intro h s hc ht
    unfold handleRestError restMessage
    rw [hc, ht]
  · intro h s hc ht hm
    unfold handleRestError restMessage
    rw [hc, ht, hm]
  · intro h hc ht hm
    unfold handleRestError restMessage
    rw [hc, ht, hm]
  · intro e he
    unfold handleActionsError
    rw [he]
  · intro e tl he hes
    unfold handleActionsError
    rw [he, hes]

/-- Closed instances of the classifier contract: a modern error with an en
translation, a deprecated legacy error, a current legacy error, and a
shape-free body passing through both classifiers unchanged. -/
theorem errorClassifier_spec_witness :
    handleRestError
        { httpCode := some 404, messageTranslations := some [("en", "notfound")] }
      = .error "notfound"
    ∧ handleActionsError { error := some { code := "c", info := "bad title", docref := "d" } }
      = .raised "bad title"
    ∧ handleActionsError { errors := some [{ code := "c", text := "first", module := "m" }] }
      = .raised "first"
    ∧ handleRestError { rest := "payload" } = .ok { rest := "payload" }
    ∧ handleActionsError { rest := "payload" } = .ok { rest := "payload" } :=
  ⟨(errorClassifier_spec _).2.2.1 404 "notfound" rfl (by decide),
   (errorClassifier_spec _).2.2.2.2.2.1 { code := "c", info := "bad title", docref := "d" } rfl,
   (errorClassifier_spec _).2.2.2.2.2.2 { code := "c", text := "first", module := "m" } [] rfl rfl,
   (errorClassifier_spec _).1 rfl,
   (errorClassifier_spec _).2.1 rfl rfl⟩

/-- C6 (amended): constructing either handle performs no fetch; on a revision
handle two successive reads of different fields issue exactly one
fetch-and-translate cycle in total, thanks to the memoizing promise field; on a
page handle, which declares no such field, each of two reads issues its own
cycle, so two reads cost two cycles. -/
theorem lazyHandle_memoization (id : Nat) (title : String)
    (f1 f2 : ResolvedRevision) (p1 p2 : PageWithSource) :
    (AsyncRevision.new id).2 = 0
    ∧ (AsyncPage.new title).2 = 0
    ∧ (AsyncRevision.getUser f1 (AsyncRevision.new id).1).2.2
      + (AsyncRevision.getTimestamp f2
          (AsyncRevision.getUser f1 (AsyncRevision.new id).1).1).2.2 = 1
    ∧ (AsyncPage.access p1 (AsyncPage.new title).1).2.2
      + (AsyncPage.access p2 (AsyncPage.access p1 (AsyncPage.new title).1).1).2.2 = 2 := by
  refine ⟨rfl, rfl, ?_, rfl⟩
  simp [AsyncRevision.new, AsyncRevision.getUser, AsyncRevision.getTimestamp,
    AsyncRevision.access]

/-- C6 counterexample: at a concrete page handle, reading two different fields
issues two fetch-and-translate cycles, refuting the exactly-once claim for page
handles. -/
theorem asyncPage_twoReads_counterexample :
    (AsyncPage.access pageFix (AsyncPage.new "A B").1).2.2
      + (AsyncPage.access pageFix
          (AsyncPage.access pageFix (AsyncPage.new "A B").1).1).2.2 = 2
    ∧ ((AsyncPage.access pageFix (AsyncPage.new "A B").1).2.2
      + (AsyncPage.access pageFix
          (AsyncPage.access pageFix (AsyncPage.new "A B").1).1).2.2 ≠ 1) := by
  refine ⟨rfl, by decide⟩

/-- C7: evaluation at the failing input. With every probe answering 200, init
succeeds but returns the state unchanged, its inited flag still false, since no
assignment to the flag exists in the source; hence the second init call on the
returned state, being a call on this very same state, again issues one probe
instead of being a no-op. The last conjunct shows the invalid-endpoint half of
the claim does hold: when both probes answer 404, init fails with the invalid
API url error after two probes. -/
theorem wikiInit_reprobe_eval :
    Wiki.init (fun _ => 200) wikiFix = (Except.ok wikiFix, 1)
    ∧ (Wiki.init (fun _ => 200) wikiFix).2 ≠ 0
    ∧ Wiki.init (fun _ => 404) wikiFix = (Except.error "Invalid API url", 2) := by
  refine ⟨rfl, by decide, rfl⟩

/-- C8 (amended): a limit outside 1 to 100 makes search and complete throw the
invalid-limit error before their own request is issued: the resulting trace
contains no search-page and no search-title request but only the probe
requests of the un-awaited init call at the top of the method. -/
theorem searchLimit_validation (probe : String → Nat) (s : WikiState) (q : String)
    (limit : Int) (h : limit < 1 ∨ limit > 100) :
    Wiki.search probe s q limit
      = (.error "Invalid limit requested. Set limit parameter to between 1 and 100.",
        initRequests probe s)
    ∧ Wiki.complete probe s q limit
      = (.error "Invalid limit requested. Set limit parameter to between 1 and 100.",
        initRequests probe s)
    ∧ (∀ k ∈ (Wiki.search probe s q limit).2, k = ReqKind.probe)
    ∧ (∀ k ∈ (Wiki.complete probe s q limit).2, k = ReqKind.probe) := by
  have hs : Wiki.search probe s q limit
      = (.error "Invalid limit requested. Set limit parameter to between 1 and 100.",
        initRequests probe s) := by
    unfold Wiki.search
    rw [if_pos h]
  have hc : Wiki.complete probe s q limit
      = (.error "Invalid limit requested. Set limit parameter to between 1 and 100.",
        initRequests probe s) := by
    unfold Wiki.complete
    rw [if_pos h]
  refine ⟨hs, hc, ?_, ?_⟩
  · intro k hk
    rw [hs] at hk
    unfold initRequests at hk
    by_cases hi : s.inited
    · simp [hi] at hk
    · simp only [hi, if_neg, ite_false, Bool.false_eq_true] at hk
      exact List.eq_of_mem_replicate hk
  · intro k hk
    rw [hc] at hk
    unfold initRequests at hk
    by_cases hi : s.inited
    · simp [hi] at hk
    · simp only [hi, if_neg, ite_false, Bool.false_eq_true] at hk
      exact List.eq_of_mem_replicate hk

/-- Closed instance of the validation contract at limit 0 on the sample wiki
state. -/
theorem searchLimit_validation_witness :
    Wiki.search (fun _ => 200) wikiFix "q" 0
      = (.error "Invalid limit requested. Set limit parameter to between 1 and 100.",
        initRequests (fun _ => 200) wikiFix)
    ∧ Wiki.complete (fun _ => 200) wikiFix "q" 0
      = (.error "Invalid limit requested. Set limit parameter to between 1 and 100.",
        initRequests (fun _ => 200) wikiFix)
    ∧ (∀ k ∈ (Wiki.search (fun _ => 200) wikiFix "q" 0).2, k = ReqKind.probe)
    ∧ (∀ k ∈ (Wiki.complete (fun _ => 200) wikiFix "q" 0).2, k = ReqKind.probe) :=
  searchLimit_validation (fun _ => 200) wikiFix "q" 0 (Or.inl (by decide))

/-- C8 counterexample: at limit 0 the call is rejected, yet the request trace
is already non-empty, because the un-awaited init call has issued its protocol
probe; so the rejection does not precede every network request. -/
theorem search_invalidLimit_counterexample :
    (Wiki.search (fun _ => 200) wikiFix "q" 0).1
      = Except.error "Invalid limit requested. Set limit parameter to between 1 and 100."
    ∧ (Wiki.search (fun _ => 200) wikiFix "q" 0).2 ≠ [] := by
  refine ⟨rfl, by decide⟩

/- ## Lemmas on the shared inner loop -/

/-- The inner loop never yields a revision whose id equals the to bound. -/
theorem runRevs_ne_to (toId limit : Option Nat) :
    ∀ (count : Nat) (revs : List Revision) (r : Revision),
      r ∈ (runRevs toId limit count revs).1 → toId ≠ some r.id := by
  intro count revs
  induction revs generalizing count with
  | nil =>
    intro r h
    simp [runRevs] at h
  | cons a rs ih =>
    intro r h
    by_cases hto : toId = some a.id
    · simp [runRevs, hto] at h
    · by_cases hl : limitReached limit (count + 1) = true
      · simp [runRevs, hto, hl] at h
        subst h
        exact hto
      · simp [runRevs, hto, hl] at h
        rcases h with h | h
        · subst h
          exact hto
        · exact ih (count + 1) r h

/-- The count of the inner loop advances by exactly the number of yields. -/
theorem runRevs_count (toId limit : Option Nat) :
    ∀ (count : Nat) (revs : List Revision),
      (runRevs toId limit count revs).2.1
        = count + (runRevs toId limit count revs).1.length := by
  intro count revs
  induction revs generalizing count with
  | nil => simp [runRevs]
  | cons a rs ih =>
    by_cases hto : toId = some a.id
    · simp [runRevs, hto]
    · by_cases hl : limitReached limit (count + 1) = true
      · simp [runRevs, hto, hl]
      · simp [runRevs, hto, hl, ih (count + 1)]
        omega

/-- The yields of the inner loop are an in-order selection of the scanned
batch. -/
theorem runRevs_sublist (toId limit : Option Nat) :
    ∀ (count : Nat) (revs : List Revision),
      List.Sublist (runRevs toId limit count revs).1 revs := by
  intro count revs
  induction revs generalizing count with
  | nil => simp [runRevs]
  | cons a rs ih =>
    by_cases hto : toId = some a.id
    · simp [runRevs, hto]
    · by_cases hl : limitReached limit (count + 1) = true
      · simp [runRevs, hto, hl]
      · simp only [runRevs, hto, hl]
        simp only [if_neg hto, Bool.false_eq_true, if_false]
        exact List.Sublist.cons₂ a (ih (count + 1))

/-- Against a finite limit not yet reached, the inner loop keeps the total
count within the limit, and strictly below it whenever it did not stop. -/
theorem runRevs_le_limit (toId : Option Nat) (l : Nat) :
    ∀ (count : Nat) (revs : List Revision), count < l →
      count + (runRevs toId (some l) count revs).1.length ≤ l
      ∧ ((runRevs toId (some l) count revs).2.2 = false →
          (runRevs toId (some l) count revs).2.1 < l) := by
  intro count revs
  induction revs generalizing count with
  | nil =>
    intro h
    refine ⟨by simp [runRevs]; omega, fun _ => by simp [runRevs]; exact h⟩
  | cons a rs ih =>
    intro h
    by_cases hto : toId = some a.id
    · refine ⟨by simp [runRevs, hto]; omega, fun hst => ?_⟩
      simp [runRevs, hto] at hst
    · by_cases hl : limitReached (some l) (count + 1) = true
      · have hle : l ≤ count + 1 := by
          simpa [limitReached] using hl
        refine ⟨by simp [runRevs, hto, hl]; omega, fun hst => ?_⟩
        simp [runRevs, hto, hl] at hst
      · have hlt : count + 1 < l := by
          simp [limitReached] at hl
          omega
        have hrec := ih (count + 1) hlt
        refine ⟨?_, ?_⟩
        · simp [runRevs, hto, hl]
          omega
        · intro hst
          simp [runRevs, hto, hl] at hst ⊢
          exact hrec.2 hst

/- ## Lemmas on the modern-protocol loop -/

/-- The modern iteration never yields a revision whose id equals the to
bound. -/
theorem iterateGo_ne_to (toId limit : Option Nat) :
    ∀ (count : Nat) (batches : List ModernBatch) (r : Revision),
      r ∈ iterateGo toId limit count batches → toId ≠ some r.id := by
  intro count batches
  induction batches generalizing count with
  | nil =>
    intro r h
    simp [iterateGo] at h
  | cons b rest ih =>
    intro r h
    simp only [iterateGo] at h
    by_cases hst : (runRevs toId limit count b.revisions).2.2 = true
    · rw [if_pos hst] at h
      exact runRevs_ne_to toId limit count b.revisions r h
    · rw [if_neg hst] at h
      cases ho : b.older with
      | none =>
        rw [ho] at h
        exact runRevs_ne_to toId limit count b.revisions r h
      | some u =>
        rw [ho] at h
        rcases List.mem_append.mp h with h | h
        · exact runRevs_ne_to toId limit count b.revisions r h
        · exact ih _ r h

/-- Against a finite limit of at least the current count, the modern iteration
yields at most the remaining allowance. -/
theorem iterateGo_le_limit (toId : Option Nat) (l : Nat) :
    ∀ (count : Nat) (batches : List ModernBatch), count < l →
      count + (iterateGo toId (some l) count batches).length ≤ l := by
  intro count batches
  induction batches generalizing count with
  | nil =>
    intro h
    simp [iterateGo]
    omega
  | cons b rest ih =>
    intro h
    have hr := runRevs_le_limit toId l count b.revisions h
    have hc := runRevs_count toId (some l) count b.revisions
    simp only [iterateGo]
    by_cases hst : (runRevs toId (some l) count b.revisions).2.2 = true
    · rw [if_pos hst]
      exact hr.1
    · rw [if_neg hst]
      cases ho : b.older with
      | none => exact hr.1
      | some u =>
        have hlt := hr.2 (by simpa using hst)
        have hrec := ih ((runRevs toId (some l) count b.revisions).2.1) hlt
        simp only [List.length_append]
        omega

/- ## Lemmas on the legacy-protocol loop -/

/-- The legacy iteration never yields a revision whose id equals the to
bound. -/
theorem iteratePolyfillGo_ne_to (toId limit : Option Nat) (filter : Option HFilter)
    (sizes : Nat → Int) (contributors : List Contributor) :
    ∀ (count : Nat) (batches : List QueryBatch) (r : Revision),
      r ∈ (iteratePolyfillGo toId limit filter sizes contributors count batches).1 →
        toId ≠ some r.id := by
  intro count batches
  induction batches generalizing count with
  | nil =>
    intro r h
    simp [iteratePolyfillGo] at h
  | cons b rest ih =>
    intro r h
    simp only [iteratePolyfillGo] at h
    set conv := (b.revisions.filter (revisionPred filter contributors)).map
      (fun x => (convertRevision sizes x).1) with hconv
    by_cases hst : (runRevs toId limit count conv).2.2 = true
    · rw [if_pos hst] at h
      exact runRevs_ne_to toId limit count conv r h
    · rw [if_neg hst] at h
      by_cases hbr : contBroken b.rvcontinue = true
      · rw [if_pos hbr] at h
        exact runRevs_ne_to toId limit count conv r h
      · rw [if_neg hbr] at h
        rcases List.mem_append.mp h with h | h
        · exact runRevs_ne_to toId limit count conv r h
        · exact ih _ r h

/-- Against a finite limit, the legacy iteration yields at most the remaining
allowance. -/
theorem iteratePolyfillGo_le_limit (toId : Option Nat) (l : Nat)
    (filter : Option HFilter) (sizes : Nat → Int) (contributors : List Contributor) :
    ∀ (count : Nat) (batches : List QueryBatch), count < l →
      count + (iteratePolyfillGo toId (some l) filter sizes contributors count batches).1.length ≤ l := by
  intro count batches
  induction batches generalizing count with
  | nil =>
    intro h
    simp [iteratePolyfillGo]
    omega
  | cons b rest ih =>
    intro h
    simp only [iteratePolyfillGo]
    set conv := (b.revisions.filter (revisionPred filter contributors)).map
      (fun x => (convertRevision sizes x).1) with hconv
    have hr := runRevs_le_limit toId l count conv h
    have hc := runRevs_count toId (some l) count conv
    by_cases hst : (runRevs toId (some l) count conv).2.2 = true
    · rw [if_pos hst]
      exact hr.1
    · rw [if_neg hst]
      by_cases hbr : contBroken b.rvcontinue = true
      · rw [if_pos hbr]
        exact hr.1
      · rw [if_neg hbr]
        have hlt := hr.2 (by simpa using hst)
        have hrec := ih ((runRevs toId (some l) count conv).2.1) hlt
        simp only [List.length_append]
        omega

/-- Every yield of the legacy iteration is the translation of a served revision
passing the client-side filter test. -/
theorem iteratePolyfillGo_mem (toId limit : Option Nat) (filter : Option HFilter)
    (sizes : Nat → Int) (contributors : List Contributor) :
    ∀ (count : Nat) (batches : List QueryBatch) (y : Revision),
      y ∈ (iteratePolyfillGo toId limit filter sizes contributors count batches).1 →
        ∃ r : ActionsRevision, revisionPred filter contributors r = true
          ∧ y = (convertRevision sizes r).1 := by
  intro count batches
  induction batches generalizing count with
  | nil =>
    intro y h
    simp [iteratePolyfillGo] at h
  | cons b rest ih =>
    intro y h
    simp only [iteratePolyfillGo] at h
    set conv := (b.revisions.filter (revisionPred filter contributors)).map
      (fun x => (convertRevision sizes x).1) with hconv
    have fromConv : y ∈ conv →
        ∃ r : ActionsRevision, revisionPred filter contributors r = true
          ∧ y = (convertRevision sizes r).1 := by
      intro hy
      rw [hconv] at hy
      rcases List.mem_map.mp hy with ⟨r, hrmem, hr⟩
      exact ⟨r, (List.mem_filter.mp hrmem).2, hr.symm⟩
    by_cases hst : (runRevs toId limit count conv).2.2 = true
    · rw [if_pos hst] at h
      exact fromConv ((runRevs_sublist toId limit count conv).subset h)
    · rw [if_neg hst] at h
      by_cases hbr : contBroken b.rvcontinue = true
      · rw [if_pos hbr] at h
        exact fromConv ((runRevs_sublist toId limit count conv).subset h)
      · rw [if_neg hbr] at h
        rcases List.mem_append.mp h with h | h
        · exact fromConv ((runRevs_sublist toId limit count conv).subset h)
        · exact ih _ y h

/-- The yields of the legacy iteration are an in-order selection of the
translations of all served revisions. -/
theorem iteratePolyfillGo_sublist (toId limit : Option Nat) (filter : Option HFilter)
    (sizes : Nat → Int) (contributors : List Contributor) :
    ∀ (count : Nat) (batches : List QueryBatch),
      List.Sublist (iteratePolyfillGo toId limit filter sizes contributors count batches).1
        ((batches.flatMap QueryBatch.revisions).map (fun r => (convertRevision sizes r).1)) := by
  intro count batches
  induction batches generalizing count with
  | nil => simp [iteratePolyfillGo]
  | cons b rest ih =>
    simp only [iteratePolyfillGo, List.flatMap_cons, List.map_append]
    set conv := (b.revisions.filter (revisionPred filter contributors)).map
      (fun x => (convertRevision sizes x).1) with hconv
    have hfirst : List.Sublist (runRevs toId limit count conv).1
        (b.revisions.map (fun r => (convertRevision sizes r).1)) := by
      refine (runRevs_sublist toId limit count conv).trans ?_
      rw [hconv]
      exact List.Sublist.map _ (List.filter_sublist b.revisions)
    have hext : List.Sublist (runRevs toId limit count conv).1
        ((b.revisions.map (fun r => (convertRevision sizes r).1))
          ++ ((rest.flatMap QueryBatch.revisions).map (fun r => (convertRevision sizes r).1))) :=
      hfirst.trans (List.sublist_append_left _ _)
    by_cases hst : (runRevs toId limit count conv).2.2 = true
    · rw [if_pos hst]
      exact hext
    · rw [if_neg hst]
      by_cases hbr : contBroken b.rvcontinue = true
      · rw [if_pos hbr]
        exact hext
      · rw [if_neg hbr]
        exact List.Sublist.append hfirst (ih _)

/-- No continuation request of the legacy iteration asks for contributors. -/
theorem iteratePolyfillGo_reqs (toId limit : Option Nat) (filter : Option HFilter)
    (sizes : Nat → Int) (contributors : List Contributor) :
    ∀ (count : Nat) (batches : List QueryBatch) (p : ActionsParams),
      p ∈ (iteratePolyfillGo toId limit filter sizes contributors count batches).2 →
        p.withContributors = false := by
  intro count batches
  induction batches generalizing count with
  | nil =>
    intro p h
    simp [iteratePolyfillGo] at h
  | cons b rest ih =>
    intro p h
    simp only [iteratePolyfillGo] at h
    set conv := (b.revisions.filter (revisionPred filter contributors)).map
      (fun x => (convertRevision sizes x).1) with hconv
    by_cases hst : (runRevs toId limit count conv).2.2 = true
    · rw [if_pos hst] at h
      simp at h
    · rw [if_neg hst] at h
      by_cases hbr : contBroken b.rvcontinue = true
      · rw [if_pos hbr] at h
        simp at h
      · rw [if_neg hbr] at h
        rcases List.mem_cons.mp h with h | h
        · rw [h]
        · exact ih _ p h

/-- The translation preserves the minor flag. -/
theorem convertRevision_minor (sizes : Nat → Int) (r : ActionsRevision) :
    (convertRevision sizes r).1.minor = r.minor := by
  by_cases h : r.parentid = 0 <;> simp [convertRevision, h]

/-- C4 (amended): under both iteration paths a revision whose id equals the to
bound is never yielded, and whenever the limit is at least 1 at most limit
revisions are yielded. (The restriction to limits of at least 1 is the
correction: with a limit of 0 the first revision is still yielded before the
count check runs.) -/
theorem history_bounds (d : HistoryDesc) (batches : List ModernBatch)
    (sizes : Nat → Int) (first : QueryBatch) (rest : List QueryBatch) :
    (∀ r ∈ History.iterate d batches, d.toId ≠ some r.id)
    ∧ (∀ l, d.limit = some l → 1 ≤ l → (History.iterate d batches).length ≤ l)
    ∧ (∀ r ∈ (History.iteratePolyfill d sizes first rest).1, d.toId ≠ some r.id)
    ∧ (∀ l, d.limit = some l → 1 ≤ l →
        (History.iteratePolyfill d sizes first rest).1.length ≤ l) := by
  refine ⟨?_, ?_, ?_, ?_⟩
  · intro r hr
    exact iterateGo_ne_to d.toId d.limit 0 batches r hr
  · intro l hl h1
    have := iterateGo_le_limit d.toId l 0 batches (by omega)
    unfold History.iterate
    rw [hl]
    omega
  · intro r hr
    exact iteratePolyfillGo_ne_to d.toId d.limit d.filter sizes first.contributors
      0 (first :: rest) r hr
  · intro l hl h1
    have := iteratePolyfillGo_le_limit d.toId l d.filter sizes first.contributors
      0 (first :: rest) (by omega)
    simp only [History.iteratePolyfill]
    rw [hl]
    omega

/-- C4 counterexample: with limit 0 and a single-revision response, the modern
iteration path still yields one revision, exceeding the stated bound. -/
theorem history_limitZero_counterexample :
    (History.iterate { limit := some 0 } [{ revisions := [c4rev] }]).length = 1
    ∧ ¬ (History.iterate { limit := some 0 } [{ revisions := [c4rev] }]).length ≤ 0 := by
  refine ⟨by decide, by decide⟩

/-- Closed instance of the amended bounds at concrete inputs: on both paths the
to bound differs from every yielded id, and with limit 1 at most one revision
comes back. -/
theorem history_bounds_witness :
    (({ toId := some 9, limit := some 1 } : HistoryDesc).toId ≠ some c4rev.id)
    ∧ (History.iterate { toId := some 9, limit := some 1 }
        [{ revisions := [c4rev, c4rev2] }]).length ≤ 1
    ∧ (({ toId := some 9, limit := some 1 } : HistoryDesc).toId
        ≠ some (convertRevision sizesFix arevMinor).1.id)
    ∧ (History.iteratePolyfill { toId := some 9, limit := some 1 }
        sizesFix batchMinor []).1.length ≤ 1 :=
  ⟨(history_bounds { toId := some 9, limit := some 1 }
      [{ revisions := [c4rev, c4rev2] }] sizesFix batchMinor []).1 c4rev (by decide),
   (history_bounds { toId := some 9, limit := some 1 }
      [{ revisions := [c4rev, c4rev2] }] sizesFix batchMinor []).2.1 1 rfl (by decide),
   (history_bounds { toId := some 9, limit := some 1 }
      [{ revisions := [c4rev, c4rev2] }] sizesFix batchMinor []).2.2.1
      (convertRevision sizesFix arevMinor).1 (by decide),
   (history_bounds { toId := some 9, limit := some 1 }
      [{ revisions := [c4rev, c4rev2] }] sizesFix batchMinor []).2.2.2 1 rfl (by decide)⟩

/-- C5: on the legacy path, with the minor filter every yielded revision has
minor true; with the bot filter every yielded revision is the translation of a
served revision whose userid occurs in the bot-contributor list of the first
response; exactly one request of the whole iteration asks for contributors; and
the yields are an in-order selection of the translations of the served
revisions, so filtering never reorders the survivors. -/
theorem iteratePolyfill_filter_spec (d : HistoryDesc) (sizes : Nat → Int)
    (first : QueryBatch) (rest : List QueryBatch) :
    (d.filter = some HFilter.minor →
      ∀ y ∈ (History.iteratePolyfill d sizes first rest).1, y.minor = true)
    ∧ (d.filter = some HFilter.bot →
      ∀ y ∈ (History.iteratePolyfill d sizes first rest).1,
        ∃ r : ActionsRevision, (∃ u ∈ first.contributors, u.userid = r.userid)
          ∧ y = (convertRevision sizes r).1)
    ∧ ((History.iteratePolyfill d sizes first rest).2.filter
        (fun p => p.withContributors)).length = 1
    ∧ List.Sublist (History.iteratePolyfill d sizes first rest).1
        (((first :: rest).flatMap QueryBatch.revisions).map
          (fun r => (convertRevision sizes r).1)) := by
  refine ⟨?_, ?_, ?_, ?_⟩
  · intro hf y hy
    obtain ⟨r, hpred, hconv⟩ := iteratePolyfillGo_mem d.toId d.limit d.filter sizes
      first.contributors 0 (first :: rest) y hy
    rw [hf] at hpred
    simp only [revisionPred] at hpred
    rw [hconv, convertRevision_minor]
    exact hpred
  · intro hf y hy
    obtain ⟨r, hpred, hconv⟩ := iteratePolyfillGo_mem d.toId d.limit d.filter sizes
      first.contributors 0 (first :: rest) y hy
    rw [hf] at hpred
    simp only [revisionPred] at hpred
    rcases List.any_eq_true.mp hpred with ⟨u, hu, hbeq⟩
    exact ⟨r, ⟨u, hu, by simpa using hbeq⟩, hconv⟩
  · unfold History.iteratePolyfill
    simp only [List.filter_cons]
    have hnone : ((iteratePolyfillGo d.toId d.limit d.filter sizes first.contributors
        0 (first :: rest)).2.filter (fun p => p.withContributors)) = [] := by
      rw [List.filter_eq_nil_iff]
      intro p hp
      have := iteratePolyfillGo_reqs d.toId d.limit d.filter sizes first.contributors
        0 (first :: rest) p hp
      simp [this]
    simp [hnone]
  · exact iteratePolyfillGo_sublist d.toId d.limit d.filter sizes first.contributors
      0 (first :: rest)

/-- Closed instance of the legacy filter contract: the minor-filter iteration
of the sample batch yields the translated minor revision, which indeed has
minor true; the bot-filter iteration yields the translation of the bot
revision, whose userid is the sample contributor. -/
theorem iteratePolyfill_filter_witness :
    (convertRevision sizesFix arevMinor).1.minor = true
    ∧ ∃ r : ActionsRevision, (∃ u ∈ batchBot.contributors, u.userid = r.userid)
        ∧ (convertRevision sizesFix arevBot).1 = (convertRevision sizesFix r).1 :=
  ⟨(iteratePolyfill_filter_spec { filter := some HFilter.minor } sizesFix batchMinor []).1
      rfl (convertRevision sizesFix arevMinor).1 (by decide),
   (iteratePolyfill_filter_spec { filter := some HFilter.bot } sizesFix batchBot []).2.1
      rfl (convertRevision sizesFix arevBot).1 (by decide)⟩

/-- Unrolling the push loop of slice: the accumulator is extended with the
longest leading run of revisions whose id differs from the to bound. -/
theorem sliceAccum_eq (toId : Nat) :
    ∀ (l acc : List Revision),
      sliceAccum toId acc l = acc ++ l.takeWhile (fun r => r.id != toId) := by
  intro l
  induction l with
  | nil =>
    intro acc
    simp [sliceAccum]
  | cons a rs ih =>
    intro acc
    by_cases h : a.id = toId
    · simp [sliceAccum, h]
    · simp only [sliceAccum, h, if_neg, ite_false, List.takeWhile_cons]
      rw [ih]
      simp [h]

/-- C9: slice returns the directly resolved from revision first, followed by
exactly the revisions the olderThan iteration yields, cut before the first one
whose id equals to; the head carries the from id and the to revision never
occurs in the tail. -/
theorem slice_spec (d : HistoryDesc) (revOracle : Nat → RevisionWithPage)
    (batches : List ModernBatch) (fromId toId : Nat)
    (h : (revOracle fromId).id = fromId) :
    History.slice d revOracle batches fromId toId
      = (revOracle fromId).toRevision ::
        (History.iterate (History.olderThan d fromId) batches).takeWhile
          (fun r => r.id != toId)
    ∧ (History.slice d revOracle batches fromId toId).head?
      = some ((revOracle fromId).toRevision)
    ∧ ((revOracle fromId).toRevision).id = fromId
    ∧ ∀ r ∈ (History.slice d revOracle batches fromId toId).tail, r.id ≠ toId := by
  have key : History.slice d revOracle batches fromId toId
      = (revOracle fromId).toRevision ::
        (History.iterate (History.olderThan d fromId) batches).takeWhile
          (fun r => r.id != toId) := by
    unfold History.slice
    rw [sliceAccum_eq]
    rfl
  refine ⟨key, by rw [key]; rfl, h, ?_⟩
  intro r hr
  rw [key] at hr
  simp only [List.tail_cons] at hr
  have := List.mem_takeWhile_imp hr
  simpa using this

/-- Closed instance of the slice contract at a concrete oracle and an empty
response stream. -/
theorem slice_spec_witness :
    History.slice {} revOracleFix [] 5 3
      = (revOracleFix 5).toRevision ::
        (History.iterate (History.olderThan {} 5) []).takeWhile (fun r => r.id != 3)
    ∧ (History.slice {} revOracleFix [] 5 3).head? = some ((revOracleFix 5).toRevision)
    ∧ ((revOracleFix 5).toRevision).id = 5
    ∧ ∀ r ∈ (History.slice {} revOracleFix [] 5 3).tail, r.id ≠ 3 :=
  slice_spec {} revOracleFix [] 5 3 rfl

end Mediawiki
